import Mathlib

set_option maxHeartbeats 1000000

/-!
Verification of the bracket/quote auto-editing engine and the syntax
highlighter of a desktop text editor.  Text is modelled as `List Char`
(one line) or `List (List Char)` (a document of lines); the host
toolkit's document exposes `characterCount = length + 1` (a trailing
paragraph separator) and `characterAt` returning that separator past
the end, both modelled below.
-/

/-- Whitespace characters stripped by Python's `str.lstrip()` (the ones
relevant to text lines: space, tab, and the ASCII control whitespace). -/
def isPySpace (c : Char) : Bool :=
  c = ' ' || c = '\t' || c = '\n' || c = '\r' || c = '\x0b' || c = '\x0c'

/-- The opening-to-closing bracket table `_BRACKET_PAIRS`. -/
def bracketPairs (c : Char) : Option Char :=
  if c = '(' then some ')'
  else if c = '[' then some ']'
  else if c = '{' then some '}'
  else none

/-- The closing-to-opening table derived in `_count_unclosed_brackets`. -/
def closingToOpening (c : Char) : Option Char :=
  if c = ')' then some '('
  else if c = ']' then some '['
  else if c = '}' then some '{'
  else none

/-- The quote characters recognised by the unclosed-bracket scanner
(`'\"\'`' + backtick in the source's membership test). -/
def isQuoteChar (c : Char) : Bool :=
  c = '"' || c = '\'' || c = '`'

/-- State of the left-to-right scan in `_count_unclosed_brackets`:
the stack of open brackets (head = top), the quote character of the
current quoted run if any, and whether the previous character was an
unconsumed backslash. -/
structure ScanState where
  stack : List Char
  inString : Option Char
  escape : Bool
deriving DecidableEq, Repr

/-- One character step of `_count_unclosed_brackets`, translated
branch-for-branch from the loop body. -/
def scanStep (st : ScanState) (c : Char) : ScanState :=
  if st.escape then { st with escape := false }
  else if c = '\\' then { st with escape := true }
  else if isQuoteChar c then
    match st.inString with
    | some q => if q = c then { st with inString := none } else st
    | none => { st with inString := some c }
  else
    match st.inString with
    | some _ => st
    | none =>
      match bracketPairs c with
      | some _ => { st with stack := c :: st.stack }
      | none =>
        match closingToOpening c with
        | some o => if st.stack.head? = some o then { st with stack := st.stack.tail } else st
        | none => st

/-- `_count_unclosed_brackets`: run the scan from the empty state and
return the final stack depth. -/
def countUnclosed (s : List Char) : Nat :=
  (s.foldl scanStep { stack := [], inString := none, escape := false }).stack.length

example : countUnclosed [] = 0 := by decide
example : countUnclosed ['(', ']'] = 1 := by decide
example : countUnclosed ['\\', '('] = 0 := by decide
example : countUnclosed ['\\', '\\', '('] = 1 := by decide
example : countUnclosed ['(', 'a', ')'] = 0 := by decide
example : countUnclosed ['"', '(', '"'] = 0 := by decide
example : countUnclosed ['i', 'f', ' ', '('] = 1 := by decide

/-- `_detect_indent_unit`, translated from the per-line loop: the first
line starting with a tab yields a tab; otherwise the first line with
non-empty leading whitespace, some non-whitespace content, and at least
two non-tab characters in its leading whitespace yields that many
spaces capped at 4; the default is four spaces. -/
def detectIndentUnit : List (List Char) → List Char
  | [] => List.replicate 4 ' '
  | line :: rest =>
    if line.head? = some '\t' then ['\t']
    else if line.dropWhile isPySpace ≠ [] ∧ line ≠ line.dropWhile isPySpace then
      if ((line.takeWhile isPySpace).filter (fun c => c ≠ '\t')) ≠ [] then
        if 2 ≤ ((line.takeWhile isPySpace).filter (fun c => c ≠ '\t')).length then
          List.replicate
            (min ((line.takeWhile isPySpace).filter (fun c => c ≠ '\t')).length 4) ' '
        else detectIndentUnit rest
      else detectIndentUnit rest
    else detectIndentUnit rest

/-- The indent-unit detector exactly as the claim words it: scan all
lines; if ANY line's leading whitespace starts with a tab the result is
a tab; otherwise the first line whose leading whitespace is non-empty,
tab-free, and at least two characters long yields that many spaces
capped at 4; default four spaces. -/
def refIndentUnit (doc : List (List Char)) : List Char :=
  if doc.any (fun l => (l.takeWhile isPySpace).head? = some '\t') then ['\t']
  else
    match doc.find? (fun l =>
        let ws := l.takeWhile isPySpace
        decide (ws ≠ [] ∧ '\t' ∉ ws ∧ 2 ≤ ws.length)) with
    | some l => List.replicate (min (l.takeWhile isPySpace).length 4) ' '
    | none => List.replicate 4 ' '

/-- Verdict of a single line under the amended (single-pass) reading:
a tab-initial line decides a tab unit; a line with non-whitespace
content whose leading whitespace holds at least two non-tab characters
decides that many spaces capped at 4. -/
def amendedLineUnit (line : List Char) : Option (List Char) :=
  if line.head? = some '\t' then some ['\t']
  else if line.dropWhile isPySpace ≠ [] ∧ line.takeWhile isPySpace ≠ [] ∧
      2 ≤ ((line.takeWhile isPySpace).filter (fun c => c ≠ '\t')).length then
    some (List.replicate
      (min ((line.takeWhile isPySpace).filter (fun c => c ≠ '\t')).length 4) ' ')
  else none

/-- The amended reference: the FIRST line that decides a unit (in a
single top-to-bottom pass) wins; default four spaces. -/
def refIndentUnitAmended (doc : List (List Char)) : List Char :=
  (doc.findSome? amendedLineUnit).getD (List.replicate 4 ' ')

example : detectIndentUnit [['i', 'f', ' ', '(']] = [' ', ' ', ' ', ' '] := by decide
example : detectIndentUnit [[' ', ' ', 'x'], ['\t', 'b']] = [' ', ' '] := by decide
example : refIndentUnit [[' ', ' ', 'x'], ['\t', 'b']] = ['\t'] := by decide
example : refIndentUnitAmended [[' ', ' ', 'x'], ['\t', 'b']] = [' ', ' '] := by decide
example : detectIndentUnit [[' ', ' ', '\t', 'x']] = [' ', ' '] := by decide
example : refIndentUnit [[' ', ' ', '\t', 'x']] = [' ', ' ', ' ', ' '] := by decide

/-- A (selection-free) editor state: the flat document text and the
cursor offset into it. -/
structure EditorState where
  text : List Char
  cursor : Nat
deriving DecidableEq, Repr

/-- The host document's paragraph separator returned by
`characterAt` past the last character. -/
def paraSep : Char := Char.ofNat 0x2029

/-- `document().characterCount()`: the text length plus the final
paragraph separator. -/
def charCount (st : EditorState) : Nat := st.text.length + 1

/-- `document().characterAt(i)`. -/
def charAt (st : EditorState) (i : Nat) : Char := st.text.getD i paraSep

/-- `_insert_pair`: insert opening and closing characters at the
cursor and step the cursor back between them. -/
def insertPair (o c : Char) (st : EditorState) : EditorState :=
  { text := st.text.take st.cursor ++ [o, c] ++ st.text.drop st.cursor
    cursor := st.cursor + 1 }

/-- The pair table of `_handle_backspace_pair`: brackets plus the two
identical-quote pairs. -/
def pairCloser (c : Char) : Option Char :=
  match bracketPairs c with
  | some x => some x
  | none => if c = '"' then some '"' else if c = '\'' then some '\'' else none

/-- `_handle_backspace_pair` on a selection-free state: `some` of the
resulting state when the pair deletion fires, `none` when it falls
through to the default backspace. -/
def handleBackspacePair (st : EditorState) : Option EditorState :=
  if st.cursor = 0 ∨ charCount st ≤ st.cursor then none
  else
    match pairCloser (charAt st (st.cursor - 1)) with
    | some cl =>
      if cl = charAt st st.cursor then
        some { text := st.text.take (st.cursor - 1) ++ st.text.drop (st.cursor + 1)
               cursor := st.cursor - 1 }
      else none
    | none => none

/-- `_skip_if_next_char`: `some` of the state with the cursor moved
right when the character at the cursor matches, else `none`. -/
def skipIfNextChar (st : EditorState) (ch : Char) : Option EditorState :=
  if st.cursor < charCount st - 1 then
    if charAt st st.cursor = ch then some { st with cursor := st.cursor + 1 }
    else none
  else none

/-- The default key handling: insert the typed character at the
cursor. -/
def defaultInsert (st : EditorState) (ch : Char) : EditorState :=
  { text := st.text.take st.cursor ++ [ch] ++ st.text.drop st.cursor
    cursor := st.cursor + 1 }

/-- The `keyPressEvent` path for a typed closing bracket: try
`_skip_if_next_char`, otherwise fall through to the default insert. -/
def typeClosingBracket (st : EditorState) (ch : Char) : EditorState :=
  match skipIfNextChar st ch with
  | some st2 => st2
  | none => defaultInsert st ch

example : handleBackspacePair { text := ['(', ')'], cursor := 1 } =
    some { text := [], cursor := 0 } := by decide
example : typeClosingBracket { text := ['(', ')'], cursor := 1 } ')' =
    { text := ['(', ')'], cursor := 2 } := by decide
example : typeClosingBracket { text := ['(', 'x'], cursor := 1 } ')' =
    { text := ['(', ')', 'x'], cursor := 2 } := by decide

/-- `_get_leading_whitespace`. -/
def getLeadingWhitespace (line : List Char) : List Char := line.takeWhile isPySpace

/-- The test `stripped_after and stripped_after[0] in ')]}'`. -/
def startsWithCloser (l : List Char) : Bool :=
  match l.head? with
  | some c => c = ')' || c = ']' || c = '}'
  | none => false

/-- Python's `l[:-k]` slice on a list (for `k = 0` the slice is
`l[:0]`, the empty list). -/
def pyDropLast (l : List Char) (k : Nat) : List Char :=
  if k = 0 then [] else l.take (l.length - k)

/-- `_adjust_indent_for_closing`. -/
def adjustIndentForClosing (baseIndent textAfter indentUnit : List Char) : List Char :=
  let stripped := textAfter.dropWhile isPySpace
  if startsWithCloser stripped then
    if indentUnit.isSuffixOf baseIndent then pyDropLast baseIndent indentUnit.length
    else baseIndent
  else baseIndent

/-- `_handle_enter_key` on a document of lines with a (row, column)
cursor: returns the new lines and the new cursor.  The cursor of the
three-line branch is the net effect of the source's move-up plus
end-of-line. -/
def handleEnterKey (doc : List (List Char)) (row col : Nat) :
    List (List Char) × Nat × Nat :=
  let currentLine := doc.getD row []
  let textBefore := currentLine.take col
  let textAfter := currentLine.drop col
  let baseIndent := getLeadingWhitespace currentLine
  let indentUnit := detectIndentUnit doc
  if 0 < countUnclosed textBefore then
    let newIndent := baseIndent ++ indentUnit
    if startsWithCloser (textAfter.dropWhile isPySpace) then
      (doc.take row ++ [textBefore, newIndent, baseIndent ++ textAfter] ++ doc.drop (row + 1),
       row + 1, newIndent.length)
    else
      (doc.take row ++ [textBefore, newIndent ++ textAfter] ++ doc.drop (row + 1),
       row + 1, newIndent.length)
  else
    let adjusted := adjustIndentForClosing baseIndent textAfter indentUnit
    (doc.take row ++ [textBefore, adjusted ++ textAfter] ++ doc.drop (row + 1),
     row + 1, adjusted.length)

example : handleEnterKey [['i', 'f', ' ', '(']] 0 4 =
    ([['i', 'f', ' ', '('], [' ', ' ', ' ', ' ']], 1, 4) := by decide
example : handleEnterKey [[' ', ' ', ')']] 0 0 =
    ([[], [' ', ' ', ')']], 1, 0) := by decide

/-- Single-line-balanced strings: every opening bracket is closed by
its matching, correctly nested, unescaped closer; quoted runs contain
no brackets (and, for a tractable notion of a "run", no backslash and
no repeat of the delimiting quote); a backslash escapes the following
character. -/
inductive LineBalanced : List Char → Prop where
  | nil : LineBalanced []
  | plain (c : Char) (s : List Char) :
      bracketPairs c = none → closingToOpening c = none →
      isQuoteChar c = false → c ≠ '\\' →
      LineBalanced s → LineBalanced (c :: s)
  | brak (o cl : Char) (s t : List Char) :
      bracketPairs o = some cl →
      LineBalanced s → LineBalanced t → LineBalanced (o :: s ++ cl :: t)
  | quoted (q : Char) (body t : List Char) :
      isQuoteChar q = true →
      (∀ c ∈ body, c ≠ q ∧ c ≠ '\\' ∧ bracketPairs c = none ∧ closingToOpening c = none) →
      LineBalanced t → LineBalanced (q :: body ++ q :: t)
  | esc (c : Char) (s : List Char) :
      LineBalanced s → LineBalanced ('\\' :: c :: s)

/-- Token kinds of the highlighter's pattern tables. -/
inductive TokenKind where
  | kw | strTok | comment | number | fn | op
deriving DecidableEq, Repr

/-- Modelled from the spec: a single-line token pattern of the missing
`editor/syntax_highlighter.py` — the regex is abstracted into its
match enumerator, listing `(start, length)` matches in a line. -/
structure SLPattern where
  kind : TokenKind
  matchList : List Char → List (Nat × Nat)

/-- Modelled from the spec: a multiline pattern of the missing
`editor/syntax_highlighter.py`, with start and end matchers searching
from a given position. -/
structure MLPattern where
  kind : TokenKind
  findStart : List Char → Nat → Option (Nat × Nat)
  findEnd : List Char → Nat → Option (Nat × Nat)

/-- Modelled from the spec: the highlighter's mutable configuration —
active language name and the two pattern lists swapped by
`set_language`. -/
structure Highlighter where
  language : Option String
  patterns : List SLPattern
  multilinePatterns : List MLPattern

/-- Modelled from the spec: `set_language` of the missing
`editor/syntax_highlighter.py` — a no-op when the name is unchanged;
an unrecognised or null name clears both pattern lists; otherwise the
registry's lists are loaded.  It is a total function: no input
raises. -/
def setLanguage (registry : List (String × (List SLPattern × List MLPattern)))
    (h : Highlighter) (name : Option String) : Highlighter :=
  if h.language = name then h
  else
    match name with
    | none => { language := none, patterns := [], multilinePatterns := [] }
    | some n =>
      match registry.lookup n with
      | some (ps, ms) => { language := some n, patterns := ps, multilinePatterns := ms }
      | none => { language := some n, patterns := [], multilinePatterns := [] }

/-- Two half-open ranges `[s1, s1+l1)` and `[s2, s2+l2)` overlap. -/
def rangesOverlap (s1 l1 s2 l2 : Nat) : Bool :=
  decide (s1 < s2 + l2) && decide (s2 < s1 + l1)

/-- Membership of a range in the highlighted-span set. -/
def overlapsAny (covered : List (Nat × Nat)) (s l : Nat) : Bool :=
  covered.any (fun r => rangesOverlap s l r.1 r.2)

/-- Modelled from the spec: the single-line pass of `highlight_block`
— patterns in table order, each match claiming its range unless it is
zero-length or overlaps an already highlighted span. -/
def singlePass (patterns : List SLPattern) (text : List Char) :
    List (Nat × Nat × TokenKind) × List (Nat × Nat) :=
  patterns.foldl (fun acc p =>
    (p.matchList text).foldl (fun acc2 m =>
      if 0 < m.2 && !(overlapsAny acc2.2 m.1 m.2) then
        (acc2.1 ++ [(m.1, m.2, p.kind)], acc2.2 ++ [(m.1, m.2)])
      else acc2) acc) ([], [])

/-- Modelled from the spec: find the first start-marker match at or
after `pos` that does not overlap an already highlighted span.  The
fuel bounds the skip loop. -/
def findStartFrom (p : MLPattern) (text : List Char) (covered : List (Nat × Nat)) :
    Nat → Nat → Option (Nat × Nat)
  | 0, _ => none
  | fuel + 1, pos =>
    match p.findStart text pos with
    | none => none
    | some (ss, sl) =>
      if overlapsAny covered ss sl then findStartFrom p text covered fuel (ss + max sl 1)
      else some (ss, sl)

/-- Modelled from the spec: scan the rest of the line for complete or
line-ending regions of one multiline pattern, returning their spans
and whether the line ends still inside a region. -/
def scanRegions (p : MLPattern) (text : List Char) (covered : List (Nat × Nat)) :
    Nat → Nat → List (Nat × Nat × TokenKind) × Bool
  | 0, _ => ([], false)
  | fuel + 1, pos =>
    match findStartFrom p text covered (text.length + 1) pos with
    | none => ([], false)
    | some (ss, sl) =>
      match p.findEnd text (ss + sl) with
      | none => ([(ss, text.length - ss, p.kind)], true)
      | some (es, el) =>
        let rec2 := scanRegions p text covered fuel (max (es + el) (pos + 1))
        ((ss, es + el - ss, p.kind) :: rec2.1, rec2.2)

/-- Modelled from the spec: the per-pattern multiline pass — when the
incoming state says the block starts inside the region, close it at
the end marker (or style the whole line and stay inside), then scan
for new regions. -/
def mlPassOne (p : MLPattern) (text : List Char) (covered : List (Nat × Nat))
    (inside : Bool) : List (Nat × Nat × TokenKind) × Bool :=
  if inside then
    match p.findEnd text 0 with
    | none => ([(0, text.length, p.kind)], true)
    | some (es, el) =>
      let rest := scanRegions p text covered (text.length + 1) (es + el)
      ((0, es + el, p.kind) :: rest.1, rest.2)
  else scanRegions p text covered (text.length + 1) 0

/-- Modelled from the spec: run the multiline pass over the pattern
list, pattern `k` owning bit `k` of the state bitmask. -/
def mlAll (text : List Char) (covered : List (Nat × Nat)) (incoming : Nat) :
    List MLPattern → Nat → List (Nat × Nat × TokenKind) × Nat
  | [], _ => ([], 0)
  | p :: rest, k =>
    let here := mlPassOne p text covered (incoming.testBit k)
    let tail := mlAll text covered incoming rest (k + 1)
    (here.1 ++ tail.1, (if here.2 then 2 ^ k else 0) + tail.2)

/-- Modelled from the spec: `highlight_block` of the missing
`editor/syntax_highlighter.py` — the single-line pass then the
multiline pass, returning the styled spans and the outgoing state. -/
def highlightBlock (h : Highlighter) (text : List Char) (incoming : Nat) :
    List (Nat × Nat × TokenKind) × Nat :=
  let sl := singlePass h.patterns text
  let ml := mlAll text sl.2 incoming h.multilinePatterns 0
  (sl.1 ++ ml.1, ml.2)

theorem bracketPairs_eq_some {o cl : Char} (h : bracketPairs o = some cl) :
    (o = '(' ∧ cl = ')') ∨ (o = '[' ∧ cl = ']') ∨ (o = '{' ∧ cl = '}') := by
  unfold bracketPairs at h
  split_ifs at h with h1 h2 h3
  · exact Or.inl ⟨h1, (Option.some.inj h).symm⟩
  · exact Or.inr (Or.inl ⟨h2, (Option.some.inj h).symm⟩)
  · exact Or.inr (Or.inr ⟨h3, (Option.some.inj h).symm⟩)

theorem closingToOpening_eq_some {c o : Char} (h : closingToOpening c = some o) :
    (c = ')' ∧ o = '(') ∨ (c = ']' ∧ o = '[') ∨ (c = '}' ∧ o = '{') := by
  unfold closingToOpening at h
  split_ifs at h with h1 h2 h3
  · exact Or.inl ⟨h1, (Option.some.inj h).symm⟩
  · exact Or.inr (Or.inl ⟨h2, (Option.some.inj h).symm⟩)
  · exact Or.inr (Or.inr ⟨h3, (Option.some.inj h).symm⟩)

theorem scanStep_escape (stack : List Char) (q : Option Char) (c : Char) :
    scanStep { stack := stack, inString := q, escape := true } c =
      { stack := stack, inString := q, escape := false } := by
  simp [scanStep]

theorem scanStep_backslash (stack : List Char) (q : Option Char) :
    scanStep { stack := stack, inString := q, escape := false } '\\' =
      { stack := stack, inString := q, escape := true } := by
  simp [scanStep]

theorem scanStep_plain (stack : List Char) (q : Option Char) (c : Char)
    (h1 : bracketPairs c = none) (h2 : closingToOpening c = none)
    (h3 : isQuoteChar c = false) (h4 : c ≠ '\\') :
    scanStep { stack := stack, inString := q, escape := false } c =
      { stack := stack, inString := q, escape := false } := by
  cases q <;> simp [scanStep, h1, h2, h3, h4]

theorem scanStep_inString (stack : List Char) (qc c : Char)
    (h1 : c ≠ qc) (h2 : c ≠ '\\') :
    scanStep { stack := stack, inString := some qc, escape := false } c =
      { stack := stack, inString := some qc, escape := false } := by
  by_cases hq : isQuoteChar c
  · simp [scanStep, hq, h2, Ne.symm h1]
  · simp [scanStep, hq, h2]

theorem scanStep_quoteOpen (stack : List Char) (qc : Char) (hq : isQuoteChar qc = true) :
    scanStep { stack := stack, inString := none, escape := false } qc =
      { stack := stack, inString := some qc, escape := false } := by
  have hbs : qc ≠ '\\' := by
    intro h; subst h; exact absurd hq (by decide)
  simp [scanStep, hq, hbs]

theorem scanStep_quoteClose (stack : List Char) (qc : Char) (hq : isQuoteChar qc = true) :
    scanStep { stack := stack, inString := some qc, escape := false } qc =
      { stack := stack, inString := none, escape := false } := by
  have hbs : qc ≠ '\\' := by
    intro h; subst h; exact absurd hq (by decide)
  simp [scanStep, hq, hbs]

theorem scanStep_push (stack : List Char) (o cl : Char) (h : bracketPairs o = some cl) :
    scanStep { stack := stack, inString := none, escape := false } o =
      { stack := o :: stack, inString := none, escape := false } := by
  rcases bracketPairs_eq_some h with ⟨ho, _⟩ | ⟨ho, _⟩ | ⟨ho, _⟩ <;> subst ho <;>
    simp [scanStep, isQuoteChar, bracketPairs, closingToOpening]

theorem scanStep_popMatch (stack : List Char) (o cl : Char) (h : bracketPairs o = some cl) :
    scanStep { stack := o :: stack, inString := none, escape := false } cl =
      { stack := stack, inString := none, escape := false } := by
  rcases bracketPairs_eq_some h with ⟨ho, hc⟩ | ⟨ho, hc⟩ | ⟨ho, hc⟩ <;>
    subst ho <;> subst hc <;>
    simp [scanStep, isQuoteChar, bracketPairs, closingToOpening]

theorem foldl_inString (stack : List Char) (qc : Char) :
    ∀ body : List Char, (∀ c ∈ body, c ≠ qc ∧ c ≠ '\\') →
      List.foldl scanStep { stack := stack, inString := some qc, escape := false } body =
        { stack := stack, inString := some qc, escape := false }
  | [], _ => rfl
  | c :: cs, hb => by
    obtain ⟨h1, h2⟩ := hb c (List.mem_cons_self c cs)
    rw [List.foldl_cons, scanStep_inString stack qc c h1 h2]
    exact foldl_inString stack qc cs (fun d hd => hb d (List.mem_cons_of_mem c hd))

theorem lineBalanced_scan {s : List Char} (hs : LineBalanced s) :
    ∀ stack : List Char,
      List.foldl scanStep { stack := stack, inString := none, escape := false } s =
        { stack := stack, inString := none, escape := false } := by
  induction hs with
  | nil => intro stack; rfl
  | plain c s h1 h2 h3 h4 _ ih =>
    intro stack
    rw [List.foldl_cons, scanStep_plain stack none c h1 h2 h3 h4]
    exact ih stack
  | brak o cl s t hp _ _ ihs iht =>
    intro stack
    rw [List.cons_append, List.foldl_cons, scanStep_push stack o cl hp,
      List.foldl_append, ihs (o :: stack), List.foldl_cons,
      scanStep_popMatch stack o cl hp]
    exact iht stack
  | quoted q body t hq hb _ iht =>
    intro stack
    rw [List.cons_append, List.foldl_cons, scanStep_quoteOpen stack q hq,
      List.foldl_append,
      foldl_inString stack q body (fun c hc => ⟨(hb c hc).1, (hb c hc).2.1⟩),
      List.foldl_cons, scanStep_quoteClose stack q hq]
    exact iht stack
  | esc c s _ ih =>
    intro stack
    rw [List.foldl_cons, scanStep_backslash stack none, List.foldl_cons,
      scanStep_escape stack none c]
    exact ih stack

/-- C2: for every single-line-balanced string — every opening bracket
matched by a correctly nested, unescaped closer, and no bracket inside
a quoted run — `_count_unclosed_brackets` returns 0. -/
theorem balanced_count_zero (s : List Char) (hs : LineBalanced s) :
    countUnclosed s = 0 := by
  unfold countUnclosed
  rw [lineBalanced_scan hs []]
  rfl

theorem balanced_count_zero_witness : countUnclosed ['(', 'a', ')'] = 0 :=
  balanced_count_zero _
    (LineBalanced.brak '(' ')' ['a'] [] (by decide)
      (LineBalanced.plain 'a' [] (by decide) (by decide) (by decide) (by decide)
        LineBalanced.nil)
      LineBalanced.nil)

/-- C6: outside a quoted run a closing bracket pops the stack only
when it matches the top-of-stack opener and otherwise leaves the state
unchanged; in particular `_count_unclosed_brackets` maps `(]` to 1. -/
theorem closer_pops_only_match (stack : List Char) (c o : Char)
    (h : closingToOpening c = some o) :
    scanStep { stack := stack, inString := none, escape := false } c =
      (if stack.head? = some o then
        { stack := stack.tail, inString := none, escape := false }
      else { stack := stack, inString := none, escape := false }) ∧
    countUnclosed ['(', ']'] = 1 := by
  refine ⟨?_, by decide⟩
  rcases closingToOpening_eq_some h with ⟨hc, ho⟩ | ⟨hc, ho⟩ | ⟨hc, ho⟩ <;>
    subst hc <;> subst ho <;>
    simp [scanStep, isQuoteChar, bracketPairs, closingToOpening]

theorem closer_pops_only_match_witness :
    scanStep { stack := ['('], inString := none, escape := false } ']' =
      { stack := ['('], inString := none, escape := false } ∧
    countUnclosed ['(', ']'] = 1 := by
  have h := closer_pops_only_match ['('] ']' '[' (by decide)
  simpa using h

/-- C8: `_count_unclosed_brackets` returns the final depth of the
open-bracket stack, a natural number, hence never negative. -/
theorem count_unclosed_stack_depth (s : List Char) :
    countUnclosed s =
      (List.foldl scanStep { stack := [], inString := none, escape := false } s).stack.length ∧
    0 ≤ (countUnclosed s : Int) :=
  ⟨rfl, Int.natCast_nonneg _⟩

/-- C10: in `_count_unclosed_brackets` a pending backslash consumes
the next character with no effect on the stack or quote state (so an
escaped bracket neither pushes nor pops), a backslash itself only arms
the escape, an escaped backslash does not escape further; concretely
the count of `\(` is 0 and of `\\(` is 1. -/
theorem escape_semantics_scan :
    (∀ (stack : List Char) (q : Option Char) (c : Char),
        scanStep { stack := stack, inString := q, escape := true } c =
          { stack := stack, inString := q, escape := false }) ∧
    (∀ (stack : List Char) (q : Option Char),
        scanStep { stack := stack, inString := q, escape := false } '\\' =
          { stack := stack, inString := q, escape := true }) ∧
    countUnclosed ['\\', '('] = 0 ∧ countUnclosed ['\\', '\\', '('] = 1 :=
  ⟨scanStep_escape, scanStep_backslash, by decide, by decide⟩


theorem ne_dropWhile_iff (p : Char → Bool) (l : List Char) :
    l ≠ l.dropWhile p ↔ l.takeWhile p ≠ [] := by
  constructor
  · intro h htw
    apply h
    conv_lhs => rw [← List.takeWhile_append_dropWhile p l]
    rw [htw]
    rfl
  · intro htw h
    have hlen : l.length = (l.takeWhile p).length + (l.dropWhile p).length := by
      conv_lhs => rw [← List.takeWhile_append_dropWhile p l]
      exact List.length_append _ _
    rw [← h] at hlen
    have hz : (l.takeWhile p).length = 0 := by omega
    exact htw (List.length_eq_zero.mp hz)

theorem detect_cons_amended (line : List Char) (rest : List (List Char)) :
    detectIndentUnit (line :: rest) =
      (amendedLineUnit line).getD (detectIndentUnit rest) := by
  simp only [detectIndentUnit, amendedLineUnit]
  by_cases h1 : line.head? = some '\t'
  · rw [if_pos h1, if_pos h1]
    rfl
  · rw [if_neg h1, if_neg h1]
    by_cases hA : line.dropWhile isPySpace = []
    · have nc1 : ¬(line.dropWhile isPySpace ≠ [] ∧ line ≠ line.dropWhile isPySpace) :=
        fun h => h.1 hA
      have nc2 : ¬(line.dropWhile isPySpace ≠ [] ∧ line.takeWhile isPySpace ≠ [] ∧
          2 ≤ ((line.takeWhile isPySpace).filter (fun c => c ≠ '\t')).length) :=
        fun h => h.1 hA
      rw [if_neg nc1, if_neg nc2]
      rfl
    · by_cases hW : line.takeWhile isPySpace = []
      · have nc1 : ¬(line.dropWhile isPySpace ≠ [] ∧ line ≠ line.dropWhile isPySpace) :=
          fun h => (ne_dropWhile_iff isPySpace line).mp h.2 hW
        have nc2 : ¬(line.dropWhile isPySpace ≠ [] ∧ line.takeWhile isPySpace ≠ [] ∧
            2 ≤ ((line.takeWhile isPySpace).filter (fun c => c ≠ '\t')).length) :=
          fun h => h.2.1 hW
        rw [if_neg nc1, if_neg nc2]
        rfl
      · have hB : line ≠ line.dropWhile isPySpace := (ne_dropWhile_iff isPySpace line).mpr hW
        have pc1 : line.dropWhile isPySpace ≠ [] ∧ line ≠ line.dropWhile isPySpace := ⟨hA, hB⟩
        by_cases hD : 2 ≤ ((line.takeWhile isPySpace).filter (fun c => c ≠ '\t')).length
        · have hC : (line.takeWhile isPySpace).filter (fun c => c ≠ '\t') ≠ [] := by
            intro hnil
            rw [hnil] at hD
            simp at hD
          have pc2 : line.dropWhile isPySpace ≠ [] ∧ line.takeWhile isPySpace ≠ [] ∧
              2 ≤ ((line.takeWhile isPySpace).filter (fun c => c ≠ '\t')).length :=
            ⟨hA, hW, hD⟩
          rw [if_pos pc1, if_pos hC, if_pos hD, if_pos pc2]
          rfl
        · have nc2 : ¬(line.dropWhile isPySpace ≠ [] ∧ line.takeWhile isPySpace ≠ [] ∧
              2 ≤ ((line.takeWhile isPySpace).filter (fun c => c ≠ '\t')).length) :=
            fun h => hD h.2.2
          rw [if_pos pc1, if_neg nc2]
          by_cases hC : (line.takeWhile isPySpace).filter (fun c => c ≠ '\t') = []
          · have nc3 : ¬((line.takeWhile isPySpace).filter (fun c => c ≠ '\t') ≠ []) :=
              fun h => h hC
            rw [if_neg nc3]
            rfl
          · rw [if_pos hC, if_neg hD]
            rfl

theorem amendedLineUnit_ne_nil (line u : List Char) (h : amendedLineUnit line = some u) :
    u ≠ [] := by
  unfold amendedLineUnit at h
  split_ifs at h with h1 h2
  · injection h with h
    subst h
    decide
  · injection h with h
    subst h
    intro hnil
    have hlen := congrArg List.length hnil
    simp only [List.length_replicate, List.length_nil] at hlen
    have := h2.2.2
    omega

/-- Every value `_detect_indent_unit` can return is non-empty: a tab,
2 to 4 spaces, or the 4-space default. -/
theorem detectIndentUnit_ne_nil : ∀ doc : List (List Char), detectIndentUnit doc ≠ []
  | [] => by
    simp [detectIndentUnit]
  | line :: rest => by
    rw [detect_cons_amended]
    cases ha : amendedLineUnit line with
    | none => simpa using detectIndentUnit_ne_nil rest
    | some u => simpa using amendedLineUnit_ne_nil line u ha

/-- C1 counterexample: on the two-line document `"  x"` / `"\tb"` the
source's `_detect_indent_unit` answers two spaces (the first line wins
the single pass) while the claim's reference answers a tab (its
any-line tab check would win). -/
theorem detect_indent_unit_counterexample :
    detectIndentUnit [[' ', ' ', 'x'], ['\t', 'b']] ≠
      refIndentUnit [[' ', ' ', 'x'], ['\t', 'b']] := by
  decide

/-- C1 (amended): `_detect_indent_unit` equals the single-pass
reference: scanning lines top to bottom, the first line that either
starts with a tab (giving one tab) or has non-whitespace content and at
least two non-tab characters in its leading whitespace (giving that
many spaces capped at 4) decides the unit; if no line decides, the
default is four spaces. -/
theorem detect_indent_unit_amended :
    ∀ doc : List (List Char), detectIndentUnit doc = refIndentUnitAmended doc
  | [] => rfl
  | line :: rest => by
    rw [detect_cons_amended]
    unfold refIndentUnitAmended
    rw [List.findSome?_cons]
    cases ha : amendedLineUnit line with
    | some u => simp
    | none =>
      simpa [refIndentUnitAmended] using detect_indent_unit_amended rest

/-- C3: on a selection-free state, `_insert_pair` of a bracket pair
followed immediately by `_handle_backspace_pair` fires (no fall
through) and restores exactly the prior text and cursor. -/
theorem insert_pair_backspace_roundtrip (s : List Char) (p : Nat) (hp : p ≤ s.length)
    (o c : Char) (hoc : bracketPairs o = some c) :
    handleBackspacePair (insertPair o c { text := s, cursor := p }) =
      some { text := s, cursor := p } := by
  have hA : (s.take p).length = p := by
    rw [List.length_take]
    omega
  have hA2 : (s.take p ++ [o, c]).length = p + 2 := by
    simp [hA]
  have htext : s.take p ++ [o, c] ++ s.drop p = s.take p ++ ([o, c] ++ s.drop p) :=
    List.append_assoc _ _ _
  have hlen : (s.take p ++ [o, c] ++ s.drop p).length = s.length + 2 := by
    simp only [List.length_append, hA, List.length_drop, List.length_cons,
      List.length_nil]
    omega
  have hcond : ¬(p + 1 = 0 ∨
      charCount { text := s.take p ++ [o, c] ++ s.drop p, cursor := p + 1 } ≤ p + 1) := by
    simp only [charCount, hlen]
    omega
  have hprev : charAt { text := s.take p ++ [o, c] ++ s.drop p, cursor := p + 1 }
      (p + 1 - 1) = o := by
    simp only [charAt, htext]
    rw [List.getD_append_right _ _ _ _ (by omega : (s.take p).length ≤ p + 1 - 1)]
    simp [hA]
  have hnext : charAt { text := s.take p ++ [o, c] ++ s.drop p, cursor := p + 1 }
      (p + 1) = c := by
    simp only [charAt, htext]
    rw [List.getD_append_right _ _ _ _ (by omega : (s.take p).length ≤ p + 1)]
    have hidx : p + 1 - (s.take p).length = 1 := by omega
    rw [hidx]
    simp
  have htake : (s.take p ++ [o, c] ++ s.drop p).take (p + 1 - 1) = s.take p := by
    rw [htext]
    have hi : p + 1 - 1 = (s.take p).length := by omega
    rw [hi, List.take_left]
  have hdrop : (s.take p ++ [o, c] ++ s.drop p).drop (p + 1 + 1) = s.drop p := by
    have hi : p + 1 + 1 = (s.take p ++ [o, c]).length := by omega
    rw [hi, List.drop_left]
  show handleBackspacePair
      { text := s.take p ++ [o, c] ++ s.drop p, cursor := p + 1 } =
    some { text := s, cursor := p }
  unfold handleBackspacePair
  rw [if_neg hcond, hprev]
  unfold pairCloser
  rw [hoc]
  simp only [hnext, if_pos rfl]
  rw [htake, hdrop, List.take_append_drop]
  simp

theorem insert_pair_backspace_roundtrip_witness :
    handleBackspacePair (insertPair '(' ')' { text := [], cursor := 0 }) =
      some { text := [], cursor := 0 } :=
  insert_pair_backspace_roundtrip [] 0 (by decide) '(' ')' (by decide)

/-- C7: typing a closing bracket that equals the character at the
cursor moves the cursor right by one and leaves the text unchanged;
when the character differs the keystroke falls through to the default
insertion. -/
theorem type_closing_skip_or_insert (st : EditorState) (ch o : Char)
    (hch : closingToOpening ch = some o) (hcur : st.cursor ≤ st.text.length) :
    (charAt st st.cursor = ch →
      typeClosingBracket st ch = { text := st.text, cursor := st.cursor + 1 }) ∧
    (charAt st st.cursor ≠ ch →
      typeClosingBracket st ch = defaultInsert st ch) := by
  constructor
  · intro heq
    have hlt : st.cursor < st.text.length := by
      rcases Nat.lt_or_ge st.cursor st.text.length with h | h
      · exact h
      · exfalso
        have hc : st.cursor = st.text.length := le_antisymm hcur h
        have hsep : charAt st st.cursor = paraSep := by
          unfold charAt
          exact List.getD_eq_default _ _ (by omega)
        rw [heq] at hsep
        rcases closingToOpening_eq_some hch with ⟨h1, _⟩ | ⟨h1, _⟩ | ⟨h1, _⟩ <;>
          subst h1 <;> exact absurd hsep (by decide)
    have hskip : skipIfNextChar st ch = some { st with cursor := st.cursor + 1 } := by
      unfold skipIfNextChar
      rw [if_pos (by unfold charCount; omega), if_pos heq]
    unfold typeClosingBracket
    rw [hskip]
  · intro hne
    have hskip : skipIfNextChar st ch = none := by
      unfold skipIfNextChar
      by_cases h : st.cursor < charCount st - 1
      · rw [if_pos h, if_neg hne]
      · rw [if_neg h]
    unfold typeClosingBracket
    rw [hskip]

theorem type_closing_skip_or_insert_witness :
    typeClosingBracket { text := ['(', ')'], cursor := 1 } ')' =
      { text := ['(', ')'], cursor := 2 } :=
  (type_closing_skip_or_insert { text := ['(', ')'], cursor := 1 } ')' '('
    (by decide) (by decide)).1 (by decide)

theorem startsWithCloser_false_of_no_closer (l : List Char)
    (h : ∀ ch ∈ l, closingToOpening ch = none) :
    startsWithCloser (l.dropWhile isPySpace) = false := by
  cases hd : (l.dropWhile isPySpace).head? with
  | none => simp [startsWithCloser, hd]
  | some c =>
    have hmem : c ∈ l.dropWhile isPySpace := by
      cases hdw : l.dropWhile isPySpace with
      | nil =>
        rw [hdw] at hd
        exact absurd hd (by simp)
      | cons a as =>
        rw [hdw] at hd
        simp only [List.head?_cons, Option.some.injEq] at hd
        subst hd
        exact List.mem_cons_self _ _
    have hc := h c ((List.dropWhile_sublist isPySpace).subset hmem)
    have h1 : c ≠ ')' := by
      intro e
      subst e
      simp [closingToOpening] at hc
    have h2 : c ≠ ']' := by
      intro e
      subst e
      simp [closingToOpening] at hc
    have h3 : c ≠ '}' := by
      intro e
      subst e
      simp [closingToOpening] at hc
    simp [startsWithCloser, hd, h1, h2, h3]

/-- C4: with an unclosed bracket before the cursor and no closing
bracket anywhere in the line suffix, Enter inserts one newline whose
new line carries the current line's leading whitespace extended by one
indent unit (the suffix follows it); only one new line is created. -/
theorem enter_unclosed_extends_indent (doc : List (List Char)) (row col : Nat)
    (hrow : row < doc.length) (hcol : col ≤ (doc.getD row []).length)
    (hcount : 0 < countUnclosed ((doc.getD row []).take col))
    (hnoclose : ∀ ch ∈ (doc.getD row []).drop col, closingToOpening ch = none) :
    handleEnterKey doc row col =
      (doc.take row ++
        [(doc.getD row []).take col,
         (getLeadingWhitespace (doc.getD row []) ++ detectIndentUnit doc) ++
           (doc.getD row []).drop col] ++
        doc.drop (row + 1),
       row + 1,
       (getLeadingWhitespace (doc.getD row []) ++ detectIndentUnit doc).length) := by
  have hfalse := startsWithCloser_false_of_no_closer _ hnoclose
  simp only [handleEnterKey]
  rw [if_pos hcount, if_neg (by simpa using hfalse)]

theorem enter_unclosed_extends_indent_witness :
    handleEnterKey [['i', 'f', ' ', '(']] 0 4 =
      ([['i', 'f', ' ', '('], [' ', ' ', ' ', ' ']], 1, 4) := by
  have h := enter_unclosed_extends_indent [['i', 'f', ' ', '(']] 0 4 (by decide)
    (by decide) (by decide) (by decide)
  rw [h]
  decide

/-- The dedent step as the claim words it: when the trimmed line
suffix starts with a closing bracket and the current indent ends with
the indent unit, the new indent is the current indent shortened by one
unit; otherwise it is kept. -/
def specAdjust (base after unit : List Char) : List Char :=
  if startsWithCloser (after.dropWhile isPySpace) ∧ unit.isSuffixOf base then
    base.take (base.length - unit.length)
  else base

theorem adjust_eq_spec (base after unit : List Char) (hu : unit ≠ []) :
    adjustIndentForClosing base after unit = specAdjust base after unit := by
  have hul : unit.length ≠ 0 := fun e => hu (List.length_eq_zero.mp e)
  unfold adjustIndentForClosing specAdjust pyDropLast
  by_cases h1 : startsWithCloser (after.dropWhile isPySpace) = true
  · by_cases h2 : unit.isSuffixOf base = true
    · rw [if_pos h1, if_pos h2, if_neg hul, if_pos ⟨h1, h2⟩]
    · have nc : ¬(startsWithCloser (after.dropWhile isPySpace) = true ∧
          unit.isSuffixOf base = true) := fun h => h2 h.2
      rw [if_pos h1, if_neg h2, if_neg nc]
  · have nc : ¬(startsWithCloser (after.dropWhile isPySpace) = true ∧
        unit.isSuffixOf base = true) := fun h => h1 h.1
    rw [if_neg h1, if_neg nc]

/-- C5: with no unclosed bracket before the cursor, Enter inserts one
newline indented with the current line's leading whitespace, except
that when the trimmed suffix starts with a closing bracket and the
indent ends with one indent unit, the new indent is shortened by one
unit. -/
theorem enter_balanced_keeps_or_dedents (doc : List (List Char)) (row col : Nat)
    (hrow : row < doc.length) (hcol : col ≤ (doc.getD row []).length)
    (hcount : countUnclosed ((doc.getD row []).take col) = 0) :
    handleEnterKey doc row col =
      (doc.take row ++
        [(doc.getD row []).take col,
         specAdjust (getLeadingWhitespace (doc.getD row []))
             ((doc.getD row []).drop col) (detectIndentUnit doc) ++
           (doc.getD row []).drop col] ++
        doc.drop (row + 1),
       row + 1,
       (specAdjust (getLeadingWhitespace (doc.getD row []))
         ((doc.getD row []).drop col) (detectIndentUnit doc)).length) := by
  have hne : ¬ 0 < countUnclosed ((doc.getD row []).take col) := by omega
  have hadj := adjust_eq_spec (getLeadingWhitespace (doc.getD row []))
    ((doc.getD row []).drop col) (detectIndentUnit doc) (detectIndentUnit_ne_nil doc)
  simp only [handleEnterKey]
  rw [if_neg hne, hadj]

theorem enter_balanced_keeps_or_dedents_witness :
    handleEnterKey [[' ', ' ', ')']] 0 0 = ([[], [' ', ' ', ')']], 1, 0) := by
  have h := enter_balanced_keeps_or_dedents [[' ', ' ', ')']] 0 0 (by decide)
    (by decide) (by decide)
  rw [h]
  decide

/-- C9: `set_language` with a name absent from the registry is total
(the model raises nothing), clears both pattern lists, and afterwards
`highlight_block` degrades to plain text: zero styled spans and
outgoing state 0 on any input line. -/
theorem set_language_unknown_degrades
    (registry : List (String × (List SLPattern × List MLPattern)))
    (hl : Highlighter) (name : String)
    (habs : registry.lookup name = none) (hne : hl.language ≠ some name) :
    (setLanguage registry hl (some name)).patterns = [] ∧
    (setLanguage registry hl (some name)).multilinePatterns = [] ∧
    highlightBlock (setLanguage registry hl (some name))
      (String.toList "def foo():") 0 = ([], 0) := by
  have hset : setLanguage registry hl (some name) =
      { language := some name, patterns := [], multilinePatterns := [] } := by
    unfold setLanguage
    rw [if_neg hne]
    show (match registry.lookup name with
      | some (ps, ms) =>
        ({ language := some name, patterns := ps, multilinePatterns := ms } : Highlighter)
      | none => { language := some name, patterns := [], multilinePatterns := [] }) =
      { language := some name, patterns := [], multilinePatterns := [] }
    rw [habs]
  rw [hset]
  refine ⟨rfl, rfl, ?_⟩
  rfl

/-- A registry fragment with one language, enough to exhibit an absent
name. -/
def sampleRegistry : List (String × (List SLPattern × List MLPattern)) :=
  [("python", ([{ kind := TokenKind.kw, matchList := fun _ => [] }], []))]

theorem set_language_unknown_degrades_witness :
    (setLanguage sampleRegistry
        { language := none, patterns := [], multilinePatterns := [] }
        (some "no_such_lang")).patterns = [] ∧
    (setLanguage sampleRegistry
        { language := none, patterns := [], multilinePatterns := [] }
        (some "no_such_lang")).multilinePatterns = [] ∧
    highlightBlock (setLanguage sampleRegistry
        { language := none, patterns := [], multilinePatterns := [] }
        (some "no_such_lang")) (String.toList "def foo():") 0 = ([], 0) :=
  set_language_unknown_degrades sampleRegistry
    { language := none, patterns := [], multilinePatterns := [] }
    "no_such_lang" rfl (fun h => Option.noConfusion h)
